import Mathlib

/-!
Shallow embedding of the fantasy-sports scoring core
(`calculatePowerScores`, `normalizeScore`, `identifySleepers`,
`analyzeTrends`). Numbers are modelled as `JSNum`: an exact rational
together with the IEEE special values (`NaN`, `±Infinity`) that the
source's unchecked arithmetic can produce; missing record fields are
`Option` and coerce to `NaN` in arithmetic, as `undefined` does.
-/

/-- A JavaScript number: a finite (exact) rational, an infinity, or NaN. -/
inductive JSNum where
  | num : ℚ → JSNum
  | posInf : JSNum
  | negInf : JSNum
  | nan : JSNum
deriving DecidableEq, Repr

/-- JS subtraction, with NaN propagation and infinity rules. -/
def JSNum.sub : JSNum → JSNum → JSNum
  | .nan, _ => .nan
  | _, .nan => .nan
  | .posInf, .posInf => .nan
  | .negInf, .negInf => .nan
  | .posInf, _ => .posInf
  | .negInf, _ => .negInf
  | .num _, .posInf => .negInf
  | .num _, .negInf => .posInf
  | .num a, .num b => .num (a - b)

/-- JS addition, with NaN propagation and infinity rules. -/
def JSNum.add : JSNum → JSNum → JSNum
  | .nan, _ => .nan
  | _, .nan => .nan
  | .posInf, .negInf => .nan
  | .negInf, .posInf => .nan
  | .posInf, _ => .posInf
  | _, .posInf => .posInf
  | .negInf, _ => .negInf
  | _, .negInf => .negInf
  | .num a, .num b => .num (a + b)

/-- JS multiplication: NaN propagates, `Infinity * 0 = NaN`, signs multiply. -/
def JSNum.mul : JSNum → JSNum → JSNum
  | .nan, _ => .nan
  | _, .nan => .nan
  | .num a, .num b => .num (a * b)
  | .num a, .posInf => if 0 < a then .posInf else if a < 0 then .negInf else .nan
  | .num a, .negInf => if 0 < a then .negInf else if a < 0 then .posInf else .nan
  | .posInf, .num b => if 0 < b then .posInf else if b < 0 then .negInf else .nan
  | .negInf, .num b => if 0 < b then .negInf else if b < 0 then .posInf else .nan
  | .posInf, .posInf => .posInf
  | .posInf, .negInf => .negInf
  | .negInf, .posInf => .negInf
  | .negInf, .negInf => .posInf

/-- JS division: `0/0 = NaN`, `x/0 = ±Infinity` for `x ≠ 0`, NaN propagates. -/
def JSNum.div : JSNum → JSNum → JSNum
  | .nan, _ => .nan
  | _, .nan => .nan
  | .num a, .num b =>
      if b = 0 then (if 0 < a then .posInf else if a < 0 then .negInf else .nan)
      else .num (a / b)
  | .num _, .posInf => .num 0
  | .num _, .negInf => .num 0
  | .posInf, .num b => if b < 0 then .negInf else .posInf
  | .negInf, .num b => if b < 0 then .posInf else .negInf
  | _, _ => .nan

/-- JS strict `<` as a boolean: any comparison involving NaN is `false`. -/
def JSNum.ltB : JSNum → JSNum → Bool
  | .nan, _ => false
  | _, .nan => false
  | .num a, .num b => decide (a < b)
  | .posInf, _ => false
  | _, .posInf => true
  | .negInf, .num _ => true
  | .num _, .negInf => false
  | .negInf, .negInf => false

/-- `Math.max` of two arguments: NaN if either argument is NaN. -/
def JSNum.mathMax : JSNum → JSNum → JSNum
  | .nan, _ => .nan
  | _, .nan => .nan
  | .posInf, _ => .posInf
  | _, .posInf => .posInf
  | .negInf, b => b
  | a, .negInf => a
  | .num a, .num b => .num (max a b)

/-- `Math.min` of two arguments: NaN if either argument is NaN. -/
def JSNum.mathMin : JSNum → JSNum → JSNum
  | .nan, _ => .nan
  | _, .nan => .nan
  | .negInf, _ => .negInf
  | _, .negInf => .negInf
  | .posInf, b => b
  | a, .posInf => a
  | .num a, .num b => .num (min a b)

/-- `Math.round`: round half toward positive infinity; fixes NaN and infinities. -/
def JSNum.mathRound : JSNum → JSNum
  | .num q => .num ((⌊q + 1 / 2⌋ : ℤ) : ℚ)
  | x => x

/-- Arithmetic value of a possibly-absent numeric field: `undefined` is NaN. -/
def fieldNum : Option ℚ → JSNum
  | some q => .num q
  | none => .nan

/-- A player record, with the fields the scoring core reads. The three raw
signals are optional (a record may omit them); `power_score` is absent until
`calculatePowerScores` annotates the record. -/
structure Player where
  id : Nat
  performance_score : Option ℚ
  projection_score : Option ℚ
  sleeper_rating : Option ℚ
  expert_consensus_rank : ℚ
  risk_level : String
  power_score : Option JSNum
deriving DecidableEq, Repr

/-- Arithmetic value of a player's `power_score` field (`undefined` is NaN). -/
def powerNum (p : Player) : JSNum :=
  match p.power_score with
  | some x => x
  | none => .nan

/-- `normalizeScore(score, min, max)`:
`Math.max(0, Math.min(100, ((score - min) / (max - min)) * 100))`. -/
def normalizeScore (score mn mx : JSNum) : JSNum :=
  JSNum.mathMax (.num 0)
    (JSNum.mathMin (.num 100)
      (JSNum.mul (JSNum.div (JSNum.sub score mn) (JSNum.sub mx mn)) (.num 100)))

/-- The body of the `players.map` in `calculatePowerScores`: normalize the three
signals, combine with weights 0.4 / 0.35 / 0.25 (sleeper term further ×10), and
store the result rounded via `Math.round(powerScore * 10) / 10`. -/
def annotatePlayer (player : Player) : Player :=
  let performanceWeight : JSNum := .num 0.4
  let projectionWeight : JSNum := .num 0.35
  let sleeperWeight : JSNum := .num 0.25
  let normalizedPerformance := normalizeScore (fieldNum player.performance_score) (.num 0) (.num 100)
  let normalizedProjection := normalizeScore (fieldNum player.projection_score) (.num 0) (.num 100)
  let normalizedSleeper := normalizeScore (fieldNum player.sleeper_rating) (.num 0) (.num 10)
  let powerScore :=
    JSNum.add
      (JSNum.add (JSNum.mul normalizedPerformance performanceWeight)
        (JSNum.mul normalizedProjection projectionWeight))
      (JSNum.mul (JSNum.mul normalizedSleeper sleeperWeight) (.num 10))
  { player with
      power_score := some (JSNum.div (JSNum.mathRound (JSNum.mul powerScore (.num 10))) (.num 10)) }

/-- The sort order induced by the comparator `(a, b) => b.power_score - a.power_score`:
`a` may precede `b` when the comparator result is not positive (a NaN comparator
result is treated as 0, as the ECMAScript SortCompare does). -/
def sortsBefore (a b : Player) : Prop :=
  JSNum.ltB (.num 0) (JSNum.sub (powerNum b) (powerNum a)) = false

instance : DecidableRel sortsBefore := fun _ _ => instDecidableEqBool _ _

/-- `calculatePowerScores`: annotate every record with its power score, then
stable-sort descending by `power_score` (JS `Array.prototype.sort` is stable). -/
def calculatePowerScores (players : List Player) : List Player :=
  (players.map annotatePlayer).insertionSort sortsBefore

/-- `identifySleepers`: keep players with `sleeper_rating > 7.5`,
`expert_consensus_rank - power_score > 10`, and `risk_level !== 'High'`. -/
def identifySleepers (players : List Player) : List Player :=
  players.filter fun player =>
    JSNum.ltB (.num 7.5) (fieldNum player.sleeper_rating) &&
    JSNum.ltB (.num 10) (JSNum.sub (.num player.expert_consensus_rank) (powerNum player)) &&
    (player.risk_level != "High")

/-- One game of a player's chronological game log. -/
structure Game where
  points : ℚ
deriving DecidableEq, Repr

/-- The record returned by `analyzeTrends`. -/
structure TrendResult where
  trend_direction : String
  trend_score : JSNum
deriving DecidableEq, Repr

/-- `Array.prototype.slice(s)` with a possibly negative start index. -/
def jsSliceFrom (l : List α) (s : Int) : List α :=
  let n : Int := l.length
  let t := if s < 0 then max (n + s) 0 else min s n
  l.drop t.toNat

/-- `Array.prototype.slice(s, e)` with possibly negative indices. -/
def jsSliceFromTo (l : List α) (s e : Int) : List α :=
  let n : Int := l.length
  let t := if s < 0 then max (n + s) 0 else min s n
  let u := if e < 0 then max (n + e) 0 else min e n
  (l.drop t.toNat).take (u - t).toNat

/-- The `reduce` in `analyzeTrends`: `acc + game.points * (index + 1)` over a window. -/
def weightedPoints (games : List Game) : ℚ :=
  games.enum.foldl (fun acc p => acc + p.2.points * ((p.1 : ℚ) + 1)) 0

/-- `analyzeTrends`: weighted average of the last four games (weights 1..4,
divided by the window length), compared against the prior window's
`slice(-8, -4)` sum divided by 4; the returned score is rounded to one decimal. -/
def analyzeTrends (playerData : List Game) : TrendResult :=
  let recentGames := jsSliceFrom playerData (-4)
  let trendScore := JSNum.div (.num (weightedPoints recentGames)) (.num (recentGames.length : ℚ))
  let priorAvg :=
    JSNum.div (.num ((jsSliceFromTo playerData (-8) (-4)).foldl (fun acc game => acc + game.points) 0))
      (.num 4)
  { trend_direction := if JSNum.ltB priorAvg trendScore then "Up" else "Down"
    trend_score := JSNum.div (JSNum.mathRound (JSNum.mul trendScore (.num 10))) (.num 10) }

/-! ### Rational-valued views of the code, for finite inputs -/

/-- `Math.round` on a rational: round half toward positive infinity. -/
def mathRoundQ (q : ℚ) : ℤ := ⌊q + 1 / 2⌋

/-- Rounding to one decimal place, as `Math.round(x * 10) / 10` does. -/
def round1 (q : ℚ) : ℚ := (mathRoundQ (q * 10) : ℚ) / 10

/-- `normalizeScore` on finite inputs with a non-degenerate range. -/
def normalizeQ (v mn mx : ℚ) : ℚ := max 0 (min 100 ((v - mn) / (mx - mn) * 100))

/-- The rational value of a finite `power_score` (0 for absent or non-finite). -/
def powerQ (p : Player) : ℚ :=
  match p.power_score with
  | some (.num q) => q
  | _ => 0

/-- Descending order of (finite) power scores; `Player` tie pairs are unordered. -/
def descBy (a b : Player) : Prop := powerQ b ≤ powerQ a

instance : DecidableRel descBy := fun _ _ => inferInstanceAs (Decidable (_ ≤ _))

instance : IsTotal Player descBy := ⟨fun a b => le_total (powerQ b) (powerQ a)⟩

instance : IsTrans Player descBy := ⟨fun _ _ _ h1 h2 => le_trans h2 h1⟩

/-- Whether an optional `JSNum` field holds a finite number. -/
def isFiniteNum : Option JSNum → Bool
  | some (.num _) => true
  | _ => false

theorem JSNum.sub_num (a b : ℚ) : JSNum.sub (.num a) (.num b) = .num (a - b) := rfl

theorem JSNum.add_num (a b : ℚ) : JSNum.add (.num a) (.num b) = .num (a + b) := rfl

theorem JSNum.mul_num (a b : ℚ) : JSNum.mul (.num a) (.num b) = .num (a * b) := rfl

theorem JSNum.div_num (a b : ℚ) (h : b ≠ 0) :
    JSNum.div (.num a) (.num b) = .num (a / b) := by
  simp [JSNum.div, h]

theorem JSNum.ltB_num (a b : ℚ) : JSNum.ltB (.num a) (.num b) = decide (a < b) := rfl

theorem JSNum.mathMax_num (a b : ℚ) :
    JSNum.mathMax (.num a) (.num b) = .num (max a b) := rfl

theorem JSNum.mathMin_num (a b : ℚ) :
    JSNum.mathMin (.num a) (.num b) = .num (min a b) := rfl

theorem JSNum.mathRound_num (q : ℚ) :
    JSNum.mathRound (.num q) = .num ((mathRoundQ q : ℤ) : ℚ) := rfl

/-- `Math.round(x * 10) / 10` on a finite value is `round1`. -/
theorem round1_bridge (x : ℚ) :
    JSNum.div (JSNum.mathRound (JSNum.mul (.num x) (.num 10))) (.num 10) = .num (round1 x) := by
  rw [JSNum.mul_num, JSNum.mathRound_num, JSNum.div_num _ _ (by norm_num)]
  rfl

/-- On finite inputs with `mn ≠ mx`, `normalizeScore` computes `normalizeQ`. -/
theorem normalizeScore_num (v mn mx : ℚ) (h : mx - mn ≠ 0) :
    normalizeScore (.num v) (.num mn) (.num mx) = .num (normalizeQ v mn mx) := by
  rw [normalizeScore, JSNum.sub_num, JSNum.sub_num, JSNum.div_num _ _ h, JSNum.mul_num,
    JSNum.mathMin_num, JSNum.mathMax_num, normalizeQ]

/-- On a record carrying all three raw signals, `annotatePlayer` stores the
weighted composite of the normalized signals, rounded to one decimal. -/
theorem annotatePlayer_power (p : Player) (a b c : ℚ)
    (h1 : p.performance_score = some a) (h2 : p.projection_score = some b)
    (h3 : p.sleeper_rating = some c) :
    annotatePlayer p =
      { p with power_score := some (.num (round1
          (normalizeQ a 0 100 * 0.4 + normalizeQ b 0 100 * 0.35 +
            normalizeQ c 0 10 * 0.25 * 10))) } := by
  simp only [annotatePlayer, h1, h2, h3, fieldNum]
  rw [normalizeScore_num a 0 100 (by norm_num), normalizeScore_num b 0 100 (by norm_num),
    normalizeScore_num c 0 10 (by norm_num), JSNum.mul_num, JSNum.mul_num, JSNum.mul_num,
    JSNum.mul_num, JSNum.add_num, JSNum.add_num, round1_bridge]

/-! ### Sorting lemmas -/

/-- `orderedInsert` only depends on the relation's values at the inserted
element against the list's elements. -/
theorem orderedInsert_congr {α : Type} {r s : α → α → Prop}
    [DecidableRel r] [DecidableRel s] (a : α) :
    ∀ m : List α, (∀ b ∈ m, (r a b ↔ s a b)) →
      m.orderedInsert r a = m.orderedInsert s a := by
  intro m
  induction m with
  | nil => intro _; rfl
  | cons b t ih =>
    intro hag
    by_cases h : r a b
    · have h' : s a b := (hag b (by simp)).mp h
      simp [List.orderedInsert, h, h']
    · have h' : ¬ s a b := fun hs => h ((hag b (by simp)).mpr hs)
      simp only [List.orderedInsert, if_neg h, if_neg h']
      rw [ih fun x hx => hag x (by simp [hx])]

/-- `insertionSort` only depends on the relation's values on the list. -/
theorem insertionSort_congr {α : Type} {r s : α → α → Prop}
    [DecidableRel r] [DecidableRel s] :
    ∀ l : List α, (∀ a ∈ l, ∀ b ∈ l, (r a b ↔ s a b)) →
      l.insertionSort r = l.insertionSort s := by
  intro l
  induction l with
  | nil => intro _; rfl
  | cons a t ih =>
    intro hag
    have ht : t.insertionSort r = t.insertionSort s :=
      ih fun x hx y hy => hag x (by simp [hx]) y (by simp [hy])
    simp only [List.insertionSort, ht]
    refine orderedInsert_congr a _ fun b hb => ?_
    have hb' : b ∈ t := (List.mem_insertionSort s).mp hb
    exact hag a (by simp) b (by simp [hb'])

/-- For finite power scores, the JS comparator order is `descBy`. -/
theorem sortsBefore_iff_descBy (a b : Player)
    (ha : isFiniteNum a.power_score = true) (hb : isFiniteNum b.power_score = true) :
    (sortsBefore a b ↔ descBy a b) := by
  rcases a with ⟨ida, pa, ja, sa, ea, ra, wa⟩
  rcases b with ⟨idb, pb, jb, sb, eb, rb, wb⟩
  match wa, wb with
  | some (.num qa), some (.num qb) =>
    simp only [sortsBefore, descBy, powerNum, powerQ, JSNum.sub_num, JSNum.ltB_num,
      decide_eq_false_iff_not, not_lt]
    constructor
    · intro h; linarith
    · intro h; linarith
  | some (.num _), some (.posInf) => exact absurd hb (by simp [isFiniteNum])
  | some (.num _), some (.negInf) => exact absurd hb (by simp [isFiniteNum])
  | some (.num _), some (.nan) => exact absurd hb (by simp [isFiniteNum])
  | some (.num _), none => exact absurd hb (by simp [isFiniteNum])
  | some (.posInf), _ => exact absurd ha (by simp [isFiniteNum])
  | some (.negInf), _ => exact absurd ha (by simp [isFiniteNum])
  | some (.nan), _ => exact absurd ha (by simp [isFiniteNum])
  | none, _ => exact absurd ha (by simp [isFiniteNum])

/-- Filtering one power-score level through `orderedInsert descBy` just
prepends the inserted element when it is at that level. -/
theorem filter_powerQ_orderedInsert (s : ℚ) (a : Player) :
    ∀ m : List Player,
      (m.orderedInsert descBy a).filter (fun r => decide (powerQ r = s)) =
        if powerQ a = s then a :: m.filter (fun r => decide (powerQ r = s))
        else m.filter (fun r => decide (powerQ r = s)) := by
  intro m
  induction m with
  | nil =>
    by_cases h : powerQ a = s <;> simp [List.orderedInsert, List.filter, h]
  | cons b t ih =>
    by_cases hab : descBy a b
    · simp only [List.orderedInsert, if_pos hab]
      by_cases h : powerQ a = s <;> simp [List.filter_cons, h]
    · have hlt : powerQ a < powerQ b := lt_of_not_le hab
      simp only [List.orderedInsert, if_neg hab]
      by_cases h : powerQ a = s
      · have hbs : ¬ powerQ b = s := by rw [← h]; exact fun e => absurd e.symm (ne_of_lt hlt)
        simp only [List.filter_cons, decide_eq_true_eq, if_neg hbs, ih, if_pos h]
      · by_cases hbs : powerQ b = s <;>
          simp [List.filter_cons, hbs, ih, h]

/-- `insertionSort descBy` preserves, level by level, the relative order of
records with equal power score. -/
theorem filter_powerQ_insertionSort (s : ℚ) :
    ∀ l : List Player,
      (l.insertionSort descBy).filter (fun r => decide (powerQ r = s)) =
        l.filter (fun r => decide (powerQ r = s)) := by
  intro l
  induction l with
  | nil => rfl
  | cons a t ih =>
    simp only [List.insertionSort, filter_powerQ_orderedInsert s a]
    by_cases h : powerQ a = s <;> simp [List.filter_cons, h, ih]

/-- A finite optional `JSNum` is `some (num q)` for some rational `q`. -/
theorem isFiniteNum_iff (o : Option JSNum) :
    isFiniteNum o = true ↔ ∃ q, o = some (.num q) := by
  match o with
  | some (.num q) => simp [isFiniteNum]
  | some (.posInf) => simp [isFiniteNum]
  | some (.negInf) => simp [isFiniteNum]
  | some (.nan) => simp [isFiniteNum]
  | none => simp [isFiniteNum]

/-! ### Claims -/

/-- C5: for `min < max`, `normalizeScore` on finite inputs returns a finite
value in `[0, 100]`; it maps `min` to 0 and `max` to 100, and clamps values
below `min` to 0 and above `max` to 100. -/
theorem C5_normalize_range (v mn mx : ℚ) (h : mn < mx) :
    (∃ r, normalizeScore (.num v) (.num mn) (.num mx) = .num r ∧ 0 ≤ r ∧ r ≤ 100) ∧
    normalizeScore (.num mn) (.num mn) (.num mx) = .num 0 ∧
    normalizeScore (.num mx) (.num mn) (.num mx) = .num 100 ∧
    (v < mn → normalizeScore (.num v) (.num mn) (.num mx) = .num 0) ∧
    (mx < v → normalizeScore (.num v) (.num mn) (.num mx) = .num 100) := by
  have hd : mx - mn ≠ 0 := by intro e; apply absurd h; rw [sub_eq_zero] at e; simp [e]
  have hdpos : (0:ℚ) < mx - mn := by linarith
  refine ⟨⟨normalizeQ v mn mx, normalizeScore_num v mn mx hd, le_max_left _ _,
      max_le (by norm_num) (min_le_left _ _)⟩, ?_, ?_, ?_, ?_⟩
  · rw [normalizeScore_num mn mn mx hd]
    simp [normalizeQ]
  · rw [normalizeScore_num mx mn mx hd]
    simp [normalizeQ, div_self hd]
  · intro hv
    rw [normalizeScore_num v mn mx hd]
    have hx : (v - mn) / (mx - mn) * 100 < 0 :=
      mul_neg_of_neg_of_pos (div_neg_of_neg_of_pos (by linarith) hdpos) (by norm_num)
    rw [normalizeQ, min_eq_right (by linarith), max_eq_left (by linarith)]
  · intro hv
    rw [normalizeScore_num v mn mx hd]
    have hx : (100:ℚ) < (v - mn) / (mx - mn) * 100 := by
      have h1 : (1:ℚ) < (v - mn) / (mx - mn) := (one_lt_div hdpos).mpr (by linarith)
      nlinarith
    rw [normalizeQ, min_eq_left (by linarith), max_eq_right (by linarith)]

/-- Witness for C5 at `(value, min, max) = (150, 0, 100)`. -/
theorem C5_normalize_range_witness :
    (0:ℚ) < 100 ∧
    ((∃ r, normalizeScore (.num 150) (.num 0) (.num 100) = .num r ∧ 0 ≤ r ∧ r ≤ 100) ∧
     normalizeScore (.num 0) (.num 0) (.num 100) = .num 0 ∧
     normalizeScore (.num 100) (.num 0) (.num 100) = .num 100 ∧
     ((150:ℚ) < 0 → normalizeScore (.num 150) (.num 0) (.num 100) = .num 0) ∧
     ((100:ℚ) < 150 → normalizeScore (.num 150) (.num 0) (.num 100) = .num 100)) :=
  ⟨by norm_num, C5_normalize_range 150 0 100 (by norm_num)⟩

/-- C6 (code evaluated at the failing input): `normalizeScore` performs no
range check. With `min == max == 5` it silently returns NaN for `value = 5`
and a clamped 100 for `value = 7`, instead of failing with InvalidRange. -/
theorem C6_degenerate_range_no_error :
    normalizeScore (.num 5) (.num 5) (.num 5) = JSNum.nan ∧
    normalizeScore (.num 7) (.num 5) (.num 5) = JSNum.num 100 := by
  constructor
  · simp only [normalizeScore, JSNum.sub_num]
    norm_num [JSNum.div, JSNum.mul, JSNum.mathMin, JSNum.mathMax]
  · simp only [normalizeScore, JSNum.sub_num]
    norm_num [JSNum.div, JSNum.mul, JSNum.mathMin, JSNum.mathMax]

/-- C1: every record carrying in-domain raw signals is assigned the rounded
weighted composite `perf_norm*0.40 + proj_norm*0.35 + (sleeper_norm*10)*0.25`
in the output of `calculatePowerScores`. -/
theorem C1_power_formula (l : List Player) (p : Player) (hp : p ∈ l) (a b c : ℚ)
    (h1 : p.performance_score = some a) (h2 : p.projection_score = some b)
    (h3 : p.sleeper_rating = some c)
    (_hda : 0 ≤ a ∧ a ≤ 100) (_hdb : 0 ≤ b ∧ b ≤ 100) (_hdc : 0 ≤ c ∧ c ≤ 10) :
    { p with power_score := some (.num (round1
        (normalizeQ a 0 100 * 0.4 + normalizeQ b 0 100 * 0.35 +
          normalizeQ c 0 10 * 10 * 0.25))) } ∈ calculatePowerScores l := by
  have he : normalizeQ c 0 10 * 10 * 0.25 = normalizeQ c 0 10 * 0.25 * 10 := by ring
  rw [he, ← annotatePlayer_power p a b c h1 h2 h3, calculatePowerScores]
  exact (List.perm_insertionSort sortsBefore (l.map annotatePlayer)).mem_iff.mpr
    (List.mem_map_of_mem annotatePlayer hp)

/-- A concrete in-domain record used to witness C1. -/
def c1Player : Player :=
  { id := 7, performance_score := some 50, projection_score := some 60,
    sleeper_rating := some 4, expert_consensus_rank := 20, risk_level := "Low",
    power_score := none }

/-- Witness for C1 at a concrete in-domain record. -/
theorem C1_power_formula_witness :
    c1Player ∈ [c1Player] ∧
    c1Player.performance_score = some 50 ∧
    c1Player.projection_score = some 60 ∧
    c1Player.sleeper_rating = some 4 ∧
    ((0:ℚ) ≤ 50 ∧ (50:ℚ) ≤ 100) ∧ ((0:ℚ) ≤ 60 ∧ (60:ℚ) ≤ 100) ∧
    ((0:ℚ) ≤ 4 ∧ (4:ℚ) ≤ 10) ∧
    { c1Player with power_score := some (.num (round1
        (normalizeQ 50 0 100 * 0.4 + normalizeQ 60 0 100 * 0.35 +
          normalizeQ 4 0 10 * 10 * 0.25))) } ∈ calculatePowerScores [c1Player] :=
  ⟨by simp, rfl, rfl, rfl, by norm_num, by norm_num, by norm_num,
    C1_power_formula [c1Player] c1Player (by simp) 50 60 4 rfl rfl rfl
      (by norm_num) (by norm_num) (by norm_num)⟩

/-- The spec's worked example record: `performance_score = 96.1`,
`projection_score = 92.3`, `sleeper_rating = 3.2`. -/
def mccaffrey : Player :=
  { id := 1, performance_score := some 96.1, projection_score := some 92.3,
    sleeper_rating := some 3.2, expert_consensus_rank := 1, risk_level := "Low",
    power_score := none }

/-- Evaluation of `calculatePowerScores` on the spec's example record: the
sleeper term is `32 * 0.25 * 10 = 80`, so the composite is `150.745`, rounded
to `150.7`. -/
theorem calculatePowerScores_mccaffrey :
    calculatePowerScores [mccaffrey] =
      [{ mccaffrey with power_score := some (.num 150.7) }] := by
  rw [calculatePowerScores,
    show [mccaffrey].map annotatePlayer = [annotatePlayer mccaffrey] from rfl,
    annotatePlayer_power mccaffrey 96.1 92.3 3.2 rfl rfl rfl]
  rw [show ∀ x : Player, List.insertionSort sortsBefore [x] = [x] from fun x => rfl]
  have hv : round1 (normalizeQ 96.1 0 100 * 0.4 + normalizeQ 92.3 0 100 * 0.35 +
      normalizeQ 3.2 0 10 * 0.25 * 10) = 150.7 := by
    rw [round1, mathRoundQ, normalizeQ, normalizeQ, normalizeQ]
    norm_num
  rw [hv]

/-- C2 counterexample: on the spec's example record the code stores
`power_score = 150.7`, and `150.7 ≠ 78.7`. -/
theorem C2_example_cex :
    calculatePowerScores [mccaffrey] =
      [{ mccaffrey with power_score := some (.num 150.7) }] ∧
    JSNum.num (150.7:ℚ) ≠ JSNum.num (78.7:ℚ) := by
  refine ⟨calculatePowerScores_mccaffrey, ?_⟩
  simp only [ne_eq, JSNum.num.injEq]
  norm_num

/-- C2 as amended: on the example record, `calculatePowerScores` assigns
`power_score = 150.7` (composite `38.44 + 32.305 + 80 = 150.745`, rounded). -/
theorem C2_example_amended :
    calculatePowerScores [mccaffrey] =
      [{ mccaffrey with power_score := some (.num 150.7) }] :=
  calculatePowerScores_mccaffrey

/-- A record missing `performance_score` (the other signals present). -/
def incompletePlayer : Player :=
  { id := 1, performance_score := none, projection_score := some 50,
    sleeper_rating := some 5, expert_consensus_rank := 1, risk_level := "Low",
    power_score := none }

/-- C9 (code evaluated at the failing input): on a record missing
`performance_score`, `calculatePowerScores` raises no error and emits the
annotated collection with `power_score = NaN` (the missing field propagates
through the arithmetic as `undefined`). -/
theorem C9_missing_signal_no_error :
    calculatePowerScores [incompletePlayer] =
      [{ incompletePlayer with power_score := some JSNum.nan }] := by
  simp only [calculatePowerScores, List.map_cons, List.map_nil, annotatePlayer,
    incompletePlayer, fieldNum]
  rw [normalizeScore_num 50 0 100 (by norm_num), normalizeScore_num 5 0 10 (by norm_num)]
  rfl

/-- C7 (code evaluated at the failing input): on a 7-entry game log (all
point totals 10) `analyzeTrends` raises no error and returns a trend result
computed from the short prior window (first 3 entries summed, divided by 4). -/
theorem C7_short_log_no_error :
    analyzeTrends (List.replicate 7 { points := (10:ℚ) }) =
      { trend_direction := "Up", trend_score := JSNum.num 25 } := by
  have h1 : jsSliceFrom (List.replicate 7 ({ points := (10:ℚ) } : Game)) (-4) =
      List.replicate 4 { points := (10:ℚ) } := rfl
  have h2 : jsSliceFromTo (List.replicate 7 ({ points := (10:ℚ) } : Game)) (-8) (-4) =
      List.replicate 3 { points := (10:ℚ) } := rfl
  have hw : weightedPoints (List.replicate 4 { points := (10:ℚ) }) = 100 := by
    rw [weightedPoints]
    show (0:ℚ) + 10 * (0 + 1) + 10 * (1 + 1) + 10 * (2 + 1) + 10 * (3 + 1) = 100
    norm_num
  have hs : (List.replicate 3 ({ points := (10:ℚ) } : Game)).foldl
      (fun acc game => acc + game.points) 0 = 30 := by
    show (0:ℚ) + 10 + 10 + 10 = 30
    norm_num
  simp only [analyzeTrends, h1, h2, hw, hs, List.length_replicate, Nat.cast_ofNat]
  rw [JSNum.div_num _ _ (by norm_num), JSNum.div_num _ _ (by norm_num), JSNum.ltB_num]
  rw [show (100:ℚ) / 4 = 25 from by norm_num, show (30:ℚ) / 4 = 7.5 from by norm_num]
  rw [round1_bridge, show round1 (25:ℚ) = 25 from by rw [round1, mathRoundQ]; norm_num]
  norm_num

/-- C8 counterexample: on 8 entries all with 10 points, `analyzeTrends`
returns direction `Up` with `trend_score = 25` (the recent window's weighted
sum `10*1+10*2+10*3+10*4 = 100` is divided by 4, not by the weight sum 10),
not `Down` with `trend_score = 10`. -/
theorem C8_equal_points_cex :
    analyzeTrends (List.replicate 8 { points := (10:ℚ) }) =
      { trend_direction := "Up", trend_score := JSNum.num 25 } ∧
    ({ trend_direction := "Up", trend_score := JSNum.num 25 } : TrendResult) ≠
      { trend_direction := "Down", trend_score := JSNum.num 10 } := by
  constructor
  · have h1 : jsSliceFrom (List.replicate 8 ({ points := (10:ℚ) } : Game)) (-4) =
        List.replicate 4 { points := (10:ℚ) } := rfl
    have h2 : jsSliceFromTo (List.replicate 8 ({ points := (10:ℚ) } : Game)) (-8) (-4) =
        List.replicate 4 { points := (10:ℚ) } := rfl
    have hw : weightedPoints (List.replicate 4 { points := (10:ℚ) }) = 100 := by
      rw [weightedPoints]
      show (0:ℚ) + 10 * (0 + 1) + 10 * (1 + 1) + 10 * (2 + 1) + 10 * (3 + 1) = 100
      norm_num
    have hs : (List.replicate 4 ({ points := (10:ℚ) } : Game)).foldl
        (fun acc game => acc + game.points) 0 = 40 := by
      show (0:ℚ) + 10 + 10 + 10 + 10 = 40
      norm_num
    simp only [analyzeTrends, h1, h2, hw, hs, List.length_replicate, Nat.cast_ofNat]
    rw [JSNum.div_num _ _ (by norm_num), JSNum.div_num _ _ (by norm_num), JSNum.ltB_num]
    rw [show (100:ℚ) / 4 = 25 from by norm_num, show (40:ℚ) / 4 = 10 from by norm_num]
    rw [round1_bridge, show round1 (25:ℚ) = 25 from by rw [round1, mathRoundQ]; norm_num]
    norm_num
  · intro h
    exact absurd (congrArg TrendResult.trend_direction h) (by simp)

/-- C8 as amended: on 8 entries with constant points `c`, the code returns
`trend_score = round1(2.5 * c)` and direction `Up` exactly when `0 < c`
(the weighted recent average `2.5c` is compared against the prior average `c`). -/
theorem C8_equal_points_amended (c : ℚ) :
    analyzeTrends (List.replicate 8 { points := c }) =
      { trend_direction := if 0 < c then "Up" else "Down"
        trend_score := JSNum.num (round1 (5 * c / 2)) } := by
  have h1 : jsSliceFrom (List.replicate 8 ({ points := c } : Game)) (-4) =
      List.replicate 4 { points := c } := rfl
  have h2 : jsSliceFromTo (List.replicate 8 ({ points := c } : Game)) (-8) (-4) =
      List.replicate 4 { points := c } := rfl
  have hw : weightedPoints (List.replicate 4 ({ points := c } : Game)) = 10 * c := by
    rw [weightedPoints]
    show (0:ℚ) + c * (0 + 1) + c * (1 + 1) + c * (2 + 1) + c * (3 + 1) = 10 * c
    ring
  have hs : (List.replicate 4 ({ points := c } : Game)).foldl
      (fun acc game => acc + game.points) 0 = 4 * c := by
    show (0:ℚ) + c + c + c + c = 4 * c
    ring
  simp only [analyzeTrends, h1, h2, hw, hs, List.length_replicate, Nat.cast_ofNat]
  rw [JSNum.div_num _ _ (by norm_num : (4:ℚ) ≠ 0),
    JSNum.div_num _ _ (by norm_num : (4:ℚ) ≠ 0), JSNum.ltB_num, round1_bridge]
  rw [show (10:ℚ) * c / 4 = 5 * c / 2 from by ring, show (4:ℚ) * c / 4 = c from by ring]
  have hiff : (c < 5 * c / 2) ↔ 0 < c := by constructor <;> intro h <;> linarith
  simp only [hiff, decide_eq_true_eq]

/-- For logs of at least 4 entries, `slice(-4)` is the last four entries. -/
theorem jsSliceFrom_last4 {α : Type} (l : List α) (h : 4 ≤ l.length) :
    jsSliceFrom l (-4) = l.drop (l.length - 4) := by
  simp only [jsSliceFrom]
  rw [if_pos (by norm_num : (-4:ℤ) < 0),
    max_eq_left (by omega : (0:ℤ) ≤ (l.length:ℤ) + -4)]
  congr 1
  omega

/-- For logs of 4 to 8 entries, `slice(-8, -4)` is everything before the
last four entries. -/
theorem jsSliceFromTo_prior {α : Type} (l : List α) (h4 : 4 ≤ l.length)
    (h8 : l.length ≤ 8) :
    jsSliceFromTo l (-8) (-4) = l.take (l.length - 4) := by
  simp only [jsSliceFromTo]
  rw [if_pos (by norm_num : (-8:ℤ) < 0), if_pos (by norm_num : (-4:ℤ) < 0),
    max_eq_right (by omega : (l.length:ℤ) + -8 ≤ 0),
    max_eq_left (by omega : (0:ℤ) ≤ (l.length:ℤ) + -4)]
  rw [show ((0:ℤ)).toNat = 0 from rfl, List.drop_zero]
  congr 1
  omega

/-- C10 counterexample: on the 4-entry log `[1, 0, 0, 0]` the returned
`trend_score` is the rounded `0.3`, not the raw weighted average
`weightedPoints / 4 = 0.25`. -/
theorem C10_short_window_cex :
    analyzeTrends [⟨1⟩, ⟨0⟩, ⟨0⟩, ⟨0⟩] =
      { trend_direction := "Up", trend_score := JSNum.num (3/10) } ∧
    JSNum.num ((3:ℚ)/10) ≠
      JSNum.num (weightedPoints [⟨1⟩, ⟨0⟩, ⟨0⟩, ⟨0⟩] / 4) := by
  have hw : weightedPoints [⟨1⟩, ⟨0⟩, ⟨0⟩, ⟨0⟩] = 1 := by
    rw [weightedPoints]
    show (0:ℚ) + 1 * (0 + 1) + 0 * (1 + 1) + 0 * (2 + 1) + 0 * (3 + 1) = 1
    norm_num
  constructor
  · have h1 : jsSliceFrom ([⟨1⟩, ⟨0⟩, ⟨0⟩, ⟨0⟩] : List Game) (-4) =
        [⟨1⟩, ⟨0⟩, ⟨0⟩, ⟨0⟩] := rfl
    have h2 : jsSliceFromTo ([⟨1⟩, ⟨0⟩, ⟨0⟩, ⟨0⟩] : List Game) (-8) (-4) = [] := rfl
    have hs : ([] : List Game).foldl (fun acc game => acc + game.points) 0 = 0 := rfl
    have hlen : ([⟨1⟩, ⟨0⟩, ⟨0⟩, ⟨0⟩] : List Game).length = 4 := rfl
    simp only [analyzeTrends, h1, h2, hw, hs, hlen, Nat.cast_ofNat]
    rw [JSNum.div_num _ _ (by norm_num), JSNum.div_num _ _ (by norm_num), JSNum.ltB_num]
    rw [show (0:ℚ) / 4 = 0 from by norm_num, round1_bridge,
      show round1 ((1:ℚ) / 4) = 3/10 from by rw [round1, mathRoundQ]; norm_num]
    norm_num
  · rw [hw]
    simp only [ne_eq, JSNum.num.injEq]
    norm_num

/-- C10 as amended: for a log of 4 to 7 entries, `analyzeTrends` returns a
result (no error is signalled): the recent window is the last four entries,
the returned `trend_score` is the weighted sum divided by 4 and rounded to one
decimal, and the direction compares against the first `n-4` entries summed and
divided by the constant 4 (an empty slice when `n = 4`). -/
theorem C10_short_window_amended (l : List Game) (h4 : 4 ≤ l.length)
    (h7 : l.length ≤ 7) :
    analyzeTrends l =
      { trend_direction :=
          if (l.take (l.length - 4)).foldl (fun acc game => acc + game.points) 0 / 4 <
              weightedPoints (l.drop (l.length - 4)) / 4 then "Up" else "Down"
        trend_score := JSNum.num (round1 (weightedPoints (l.drop (l.length - 4)) / 4)) } := by
  have h1 := jsSliceFrom_last4 l h4
  have h2 := jsSliceFromTo_prior l h4 (by omega)
  have hlen : (l.drop (l.length - 4)).length = 4 := by rw [List.length_drop]; omega
  simp only [analyzeTrends, h1, h2, hlen, Nat.cast_ofNat]
  rw [JSNum.div_num _ _ (by norm_num : (4:ℚ) ≠ 0),
    JSNum.div_num _ _ (by norm_num : (4:ℚ) ≠ 0), JSNum.ltB_num, round1_bridge]
  simp only [decide_eq_true_eq]

/-- A concrete five-entry log used to witness C10. -/
def shortLog : List Game := [⟨2⟩, ⟨1⟩, ⟨1⟩, ⟨1⟩, ⟨1⟩]

/-- Witness for C10 on a concrete five-entry log. -/
theorem C10_short_window_amended_witness :
    4 ≤ shortLog.length ∧ shortLog.length ≤ 7 ∧
    analyzeTrends shortLog =
      { trend_direction :=
          if (shortLog.take (shortLog.length - 4)).foldl
                (fun acc game => acc + game.points) 0 / 4 <
              weightedPoints (shortLog.drop (shortLog.length - 4)) / 4
          then "Up" else "Down"
        trend_score :=
          JSNum.num (round1 (weightedPoints (shortLog.drop (shortLog.length - 4)) / 4)) } :=
  ⟨by decide, by decide, C10_short_window_amended shortLog (by decide) (by decide)⟩

/-- C3: on a non-empty collection whose records all carry the three raw
signals, `calculatePowerScores` preserves length, permutes the annotated
input, sorts descending by (finite) power score, and keeps equal-score
records in their original relative order. -/
theorem C3_ranking (l : List Player) (_hne : l ≠ [])
    (hfin : ∀ p ∈ l, p.performance_score.isSome = true ∧
      p.projection_score.isSome = true ∧ p.sleeper_rating.isSome = true) :
    (calculatePowerScores l).length = l.length ∧
    (calculatePowerScores l).Perm (l.map annotatePlayer) ∧
    (calculatePowerScores l).Pairwise descBy ∧
    (∀ r ∈ calculatePowerScores l, ∃ q, r.power_score = some (JSNum.num q)) ∧
    (∀ s : ℚ, (calculatePowerScores l).filter (fun r => decide (powerQ r = s)) =
      (l.map annotatePlayer).filter (fun r => decide (powerQ r = s))) := by
  have hMfin : ∀ r ∈ l.map annotatePlayer, isFiniteNum r.power_score = true := by
    intro r hr
    rcases List.mem_map.mp hr with ⟨p, hpl, rfl⟩
    obtain ⟨hA, hB, hC⟩ := hfin p hpl
    obtain ⟨a, ha⟩ := Option.isSome_iff_exists.mp hA
    obtain ⟨b, hb⟩ := Option.isSome_iff_exists.mp hB
    obtain ⟨c, hc⟩ := Option.isSome_iff_exists.mp hC
    rw [annotatePlayer_power p a b c ha hb hc]
    simp [isFiniteNum]
  have key : calculatePowerScores l = (l.map annotatePlayer).insertionSort descBy := by
    rw [calculatePowerScores]
    exact insertionSort_congr (l.map annotatePlayer)
      (fun a ha b hb => sortsBefore_iff_descBy a b (hMfin a ha) (hMfin b hb))
  refine ⟨?_, ?_, ?_, ?_, ?_⟩
  · rw [calculatePowerScores, List.length_insertionSort, List.length_map]
  · rw [calculatePowerScores]
    exact List.perm_insertionSort sortsBefore (l.map annotatePlayer)
  · rw [key]
    exact List.sorted_insertionSort descBy (l.map annotatePlayer)
  · intro r hr
    rw [calculatePowerScores] at hr
    exact (isFiniteNum_iff r.power_score).mp
      (hMfin r ((List.perm_insertionSort sortsBefore _).mem_iff.mp hr))
  · intro s
    rw [key, filter_powerQ_insertionSort]

/-- A concrete two-record pool used to witness C3. -/
def rankedPool : List Player :=
  [{ id := 1, performance_score := some 20, projection_score := some 30,
     sleeper_rating := some 2, expert_consensus_rank := 40, risk_level := "Low",
     power_score := none },
   { id := 2, performance_score := some 90, projection_score := some 80,
     sleeper_rating := some 6, expert_consensus_rank := 3, risk_level := "Medium",
     power_score := none }]

/-- Witness for C3 on a concrete two-record pool. -/
theorem C3_ranking_witness :
    rankedPool ≠ [] ∧
    (∀ p ∈ rankedPool, p.performance_score.isSome = true ∧
      p.projection_score.isSome = true ∧ p.sleeper_rating.isSome = true) ∧
    ((calculatePowerScores rankedPool).length = rankedPool.length ∧
     (calculatePowerScores rankedPool).Perm (rankedPool.map annotatePlayer) ∧
     (calculatePowerScores rankedPool).Pairwise descBy ∧
     (∀ r ∈ calculatePowerScores rankedPool, ∃ q, r.power_score = some (JSNum.num q)) ∧
     (∀ s : ℚ, (calculatePowerScores rankedPool).filter (fun r => decide (powerQ r = s)) =
       (rankedPool.map annotatePlayer).filter (fun r => decide (powerQ r = s)))) :=
  ⟨by simp [rankedPool], by decide,
    C3_ranking rankedPool (by simp [rankedPool]) (by decide)⟩

/-- The spec's selection predicate for sleepers, stated over the record
fields: `sleeper_rating > 7.5`, `expert_consensus_rank - power_score > 10`
(with a finite numeric `power_score`), and `risk_level` not `High`. Used to
check `identifySleepers` against its contract. -/
def sleeperCriteria (p : Player) : Bool :=
  (match p.sleeper_rating with
    | some s => decide ((7.5:ℚ) < s)
    | none => false) &&
  (match p.power_score with
    | some (.num q) => decide ((10:ℚ) < p.expert_consensus_rank - q)
    | _ => false) &&
  (p.risk_level != "High")

/-- C4: on a collection whose records all carry a (finite) `power_score`,
`identifySleepers` is exactly the order-preserving filter by the three-part
sleeper predicate; in particular every returned record has
`sleeper_rating > 7.5`, rank-minus-score above 10, and is not High risk. -/
theorem C4_classifier (l : List Player)
    (hl : ∀ p ∈ l, isFiniteNum p.power_score = true) :
    identifySleepers l = l.filter sleeperCriteria ∧
    ∀ p ∈ identifySleepers l,
      p.risk_level ≠ "High" ∧
      (∃ s, p.sleeper_rating = some s ∧ (7.5:ℚ) < s) ∧
      (∃ q, p.power_score = some (JSNum.num q) ∧
        (10:ℚ) < p.expert_consensus_rank - q) := by
  constructor
  · rw [identifySleepers]
    apply List.filter_congr
    intro p hp
    obtain ⟨q, hq⟩ := (isFiniteNum_iff p.power_score).mp (hl p hp)
    rcases hsr : p.sleeper_rating with _ | s
    · simp [sleeperCriteria, fieldNum, hsr, JSNum.ltB]
    · simp [sleeperCriteria, fieldNum, hsr, hq, powerNum, JSNum.sub_num, JSNum.ltB_num]
  · intro p hp
    rw [identifySleepers] at hp
    obtain ⟨hpl, hcond⟩ := List.mem_filter.mp hp
    obtain ⟨q, hq⟩ := (isFiniteNum_iff p.power_score).mp (hl p hpl)
    simp only [Bool.and_eq_true] at hcond
    obtain ⟨⟨c1, c2⟩, c3⟩ := hcond
    refine ⟨bne_iff_ne.mp c3, ?_, ?_⟩
    · rcases hsr : p.sleeper_rating with _ | s
      · rw [hsr] at c1
        simp [fieldNum, JSNum.ltB] at c1
      · rw [hsr] at c1
        simp only [fieldNum, JSNum.ltB_num, decide_eq_true_eq] at c1
        exact ⟨s, rfl, c1⟩
    · rw [show powerNum p = .num q from by rw [powerNum, hq]] at c2
      rw [JSNum.sub_num, JSNum.ltB_num, decide_eq_true_eq] at c2
      exact ⟨q, hq, c2⟩

/-- A concrete already-scored pool used to witness C4: one sleeper, one
High-risk record, one record below the rating threshold. -/
def scoredPool : List Player :=
  [{ id := 1, performance_score := some 60, projection_score := some 60,
     sleeper_rating := some 8, expert_consensus_rank := 40, risk_level := "Low",
     power_score := some (.num 20) },
   { id := 2, performance_score := some 60, projection_score := some 60,
     sleeper_rating := some 9, expert_consensus_rank := 50, risk_level := "High",
     power_score := some (.num 10) },
   { id := 3, performance_score := some 60, projection_score := some 60,
     sleeper_rating := some 5, expert_consensus_rank := 50, risk_level := "Low",
     power_score := some (.num 10) }]

/-- Witness for C4 on a concrete already-scored pool. -/
theorem C4_classifier_witness :
    (∀ p ∈ scoredPool, isFiniteNum p.power_score = true) ∧
    (identifySleepers scoredPool = scoredPool.filter sleeperCriteria ∧
     ∀ p ∈ identifySleepers scoredPool,
       p.risk_level ≠ "High" ∧
       (∃ s, p.sleeper_rating = some s ∧ (7.5:ℚ) < s) ∧
       (∃ q, p.power_score = some (JSNum.num q) ∧
         (10:ℚ) < p.expert_consensus_rank - q)) :=
  ⟨by decide, C4_classifier scoredPool (by decide)⟩
